import Mathlib

/-!
Shallow embedding of the spherical blue-noise generator (`src/src/lib.rs`).

The `f32` components of glam's `Vec3` are modelled by real numbers.  The
operations of the external `glam` crate used by the library (`cross`, `dot`,
`normalize`, `angle_between`, `Mat3::from_axis_angle` + `mul_vec3`) are
modelled from the specification of those collaborators: in particular
`normalize` applied to the zero vector produces NaN components (0 * (1/0)),
which the embedding represents by returning `none`; a `none` result marks a
NaN-poisoned value that has left the real-valued carrier.  All repository
functions (`new`, `new_raw`, `new_with_params`, `advance`, `advance_multiple`,
`into_iter`/`next`) are translated directly from `lib.rs`.
-/

noncomputable section

open scoped Classical

namespace SphericalBlueNoise

/-- glam `Vec3` with `f32` fields `x`, `y`, `z`, modelled over `ℝ`. -/
abbrev Vec3 := ℝ × ℝ × ℝ

namespace Vec3

/-- Field `x` of a glam `Vec3`. -/
def x (v : Vec3) : ℝ := v.1

/-- Field `y` of a glam `Vec3`. -/
def y (v : Vec3) : ℝ := v.2.1

/-- Field `z` of a glam `Vec3`. -/
def z (v : Vec3) : ℝ := v.2.2

/-- glam `Vec3::dot`: the Euclidean inner product. -/
def dot (a b : Vec3) : ℝ := a.x * b.x + a.y * b.y + a.z * b.z

/-- glam `Vec3::cross`: the standard 3D cross product. -/
def cross (a b : Vec3) : Vec3 :=
  (a.y * b.z - a.z * b.y, a.z * b.x - a.x * b.z, a.x * b.y - a.y * b.x)

/-- Squared Euclidean norm, `dot v v`. -/
def normSq (v : Vec3) : ℝ := dot v v

/-- glam `Vec3::length`: the Euclidean norm. -/
def length (v : Vec3) : ℝ := Real.sqrt (normSq v)

end Vec3

/-- glam `Vec3::normalize`, `v * (1/length v)`.  Modelled from the spec:
normalization of the zero vector produces NaNs (spec section 7), represented
here by `none`; on a nonzero vector it scales by the inverse length. -/
def nNormalize (v : Vec3) : Option Vec3 :=
  if v = 0 then none else some ((Vec3.length v)⁻¹ • v)

/-- glam `Vec3::angle_between`.  Modelled from the spec: the great-circle
angular separation, "arccosine of the dot product, clamped to [-1,1]". -/
def angleBetween (a b : Vec3) : ℝ :=
  Real.arccos (min 1 (max (-1) (Vec3.dot a b)))

/-- glam `Mat3::from_axis_angle(k, θ)` applied through `mul_vec3 v`.  Modelled
from the spec: the standard axis-angle (Rodrigues) rotation
`cos θ • v + sin θ • (k × v) + (1 - cos θ)(k ⬝ v) • k`, which is exactly the
matrix `cos θ I + sin θ [k]ₓ + (1 - cos θ) k kᵀ` applied to `v`. -/
def axisAngleRotate (k : Vec3) (θ : ℝ) (v : Vec3) : Vec3 :=
  Real.cos θ • v + Real.sin θ • Vec3.cross k v + ((1 - Real.cos θ) * Vec3.dot k v) • k

/-- `Option`-valued traversal of a list, mirroring `collect()` of an iterator
of fallible (possibly NaN-producing) per-element computations. -/
def mapOpt (f : α → Option β) : List α → Option (List β)
  | [] => some []
  | a :: l => (f a).bind fun b => (mapOpt f l).map (b :: ·)

/-- `Option`-valued left fold, mirroring `Iterator::fold` where each step may
produce a NaN-poisoned (undefined) value. -/
def foldOpt (f : β → α → Option β) : β → List α → Option β
  | b, [] => some b
  | b, a :: l => (f b a).bind fun b' => foldOpt f b' l

/-- The wrapping `as i32` cast Rust applies to a `u32`: reduce modulo `2^32`,
then values at or above `2^31` represent negatives (two's complement). -/
def u32ToI32 (n : ℕ) : ℤ :=
  if n % 2 ^ 32 < 2 ^ 31 then ((n % 2 ^ 32 : ℕ) : ℤ)
  else ((n % 2 ^ 32 : ℕ) : ℤ) - 2 ^ 32

/-- The initial threshold computed by `BlueNoiseSphere::new`:
`0.999_383_57_f32.powi(num_of_points as i32) / 4.0 + 0.01`, with the
wrapping `u32 → i32` cast on the exponent (negative for `N ≥ 2^31`). -/
def defaultThreshold (numOfPoints : ℕ) : ℝ :=
  (0.99938357 : ℝ) ^ (u32ToI32 numOfPoints) / 4 + 0.01

/-- Points on the sphere that form blue noise (`struct BlueNoiseSphere`). -/
structure BlueNoiseSphere where
  /-- The internal buffer `particles: Vec<Vec3>`. -/
  particles : List Vec3

namespace BlueNoiseSphere

/-- One repulsive force term of `advance`:
`cross(p, q).normalize() / (angle_between(p, q)^2 + 0.00000001)`. -/
def forceTerm (p q : Vec3) : Option Vec3 :=
  (nNormalize (Vec3.cross p q)).map fun u =>
    (angleBetween p q ^ 2 + 0.00000001)⁻¹ • u

/-- The per-particle body of the `par_iter().map(...)` closure in `advance`:
fold the repulsive terms over all particles of the read-only snapshot other
than `p` (compared by value), normalize the accumulated acceleration to get
the rotation axis, and rotate `p` by the threshold angle around it. -/
def advancePoint (p : Vec3) (snapshot : List Vec3) (threshold : ℝ) : Option Vec3 :=
  (foldOpt (fun acc q => (forceTerm p q).map fun t => acc - t) 0
      (snapshot.filter fun q => decide (q ≠ p))).bind fun acc =>
    (nNormalize acc).map fun axis => axisAngleRotate axis threshold p

/-- `BlueNoiseSphere::advance`: map every particle through `advancePoint`
against the immutable snapshot `self.particles`. -/
def advance (s : BlueNoiseSphere) (threshold : ℝ) : Option BlueNoiseSphere :=
  (mapOpt (fun p => advancePoint p s.particles threshold) s.particles).map
    BlueNoiseSphere.mk

/-- `BlueNoiseSphere::advance_multiple`: `0` iterations returns `self`,
otherwise advance once by the threshold and recurse with the threshold
multiplied by the decay ratio. -/
def advance_multiple :
    BlueNoiseSphere → ℕ → ℝ → ℝ → Option BlueNoiseSphere
  | s, 0, _, _ => some s
  | s, n + 1, threshold, decay =>
    (advance s threshold).bind fun s' =>
      advance_multiple s' n (threshold * decay) decay

/-- `BlueNoiseSphere::new_raw`: `num_of_points` fresh samples from the
injected uniform-sphere sampler (the sampler itself is an external
collaborator; it is modelled as the stream `sample` of its draws). -/
def new_raw (numOfPoints : ℕ) (sample : ℕ → Vec3) : BlueNoiseSphere :=
  ⟨(List.range numOfPoints).map sample⟩

/-- `BlueNoiseSphere::new`: raw construction followed by 16 relaxation
iterations starting from threshold
`0.999_383_57_f32.powi(num_of_points as i32) / 4.0 + 0.01` (the exponent
goes through the wrapping `u32 → i32` cast) with decay ratio `0.8`. -/
def new (numOfPoints : ℕ) (sample : ℕ → Vec3) : Option BlueNoiseSphere :=
  advance_multiple (new_raw numOfPoints sample) 16 (defaultThreshold numOfPoints)
    0.8

/-- `BlueNoiseSphere::new_with_params`: raw construction followed by the
requested number of relaxation iterations. -/
def new_with_params (sample : ℕ → Vec3) (numOfPoints : ℕ)
    (numOfIterations : ℕ) (threshold decay : ℝ) : Option BlueNoiseSphere :=
  advance_multiple (new_raw numOfPoints sample) numOfIterations threshold decay

end BlueNoiseSphere

/-- `struct BlueNoiseSphereIterator`: the consuming iterator state. -/
structure BlueNoiseSphereIterator where
  /-- The internal buffer `points: Vec<(f32, f32, f32)>`. -/
  points : List (ℝ × ℝ × ℝ)

/-- `IntoIterator for BlueNoiseSphere`: convert every particle into an
`(x, y, z)` tuple, preserving the internal storage order in the buffer. -/
def BlueNoiseSphere.intoIter (s : BlueNoiseSphere) : BlueNoiseSphereIterator :=
  ⟨s.particles.map fun p => (p.x, p.y, p.z)⟩

/-- `Iterator::next for BlueNoiseSphereIterator`: `self.points.pop()` —
remove and return the last element of the buffer, `none` once exhausted. -/
def BlueNoiseSphereIterator.next (it : BlueNoiseSphereIterator) :
    Option ((ℝ × ℝ × ℝ) × BlueNoiseSphereIterator) :=
  match it.points with
  | [] => none
  | a :: l => some ((a :: l).getLast (List.cons_ne_nil a l), ⟨(a :: l).dropLast⟩)

/-- Repeatedly pop the last element of a buffer until it is empty. -/
def drainList : List (ℝ × ℝ × ℝ) → List (ℝ × ℝ × ℝ)
  | [] => []
  | a :: l =>
    (a :: l).getLast (List.cons_ne_nil a l) :: drainList ((a :: l).dropLast)
termination_by l => l.length
decreasing_by
  simp only [List.length_cons, List.length_dropLast]
  omega

/-- Draining the iterator to the end (what `collect()` performs): repeatedly
pop the last element of the buffer until it is empty. -/
def drain (it : BlueNoiseSphereIterator) : List (ℝ × ℝ × ℝ) :=
  drainList it.points

/-- The schedule of thresholds applied by `advance_multiple`: the `i`-th
advance step uses `θ · d^i`. -/
def appliedThreshold (threshold decay : ℝ) (i : ℕ) : ℝ := threshold * decay ^ i

/-! ### Auxiliary lemmas about the embedding -/

theorem mapOpt_length {f : α → Option β} :
    ∀ {l : List α} {l' : List β}, mapOpt f l = some l' → l'.length = l.length
  | [], l', h => by
    simp only [mapOpt, Option.some_inj] at h
    simp [← h]
  | a :: l, l', h => by
    simp only [mapOpt, Option.bind_eq_some, Option.map_eq_some'] at h
    obtain ⟨b, _, m, hm, rfl⟩ := h
    simp [mapOpt_length hm]

theorem mapOpt_getElem? {f : α → Option β} :
    ∀ {l : List α} {l' : List β}, mapOpt f l = some l' →
      ∀ i : ℕ, l'[i]? = (l[i]?).bind f
  | [], l', h, i => by
    simp only [mapOpt, Option.some_inj] at h
    simp [← h]
  | a :: l, l', h, i => by
    simp only [mapOpt, Option.bind_eq_some, Option.map_eq_some'] at h
    obtain ⟨b, hb, m, hm, rfl⟩ := h
    cases i with
    | zero => simp [hb]
    | succ i => simpa using mapOpt_getElem? hm i

theorem mapOpt_mem {f : α → Option β} :
    ∀ {l : List α} {l' : List β}, mapOpt f l = some l' →
      ∀ b ∈ l', ∃ a ∈ l, f a = some b
  | [], l', h, b, hb => by
    simp only [mapOpt, Option.some_inj] at h
    rw [← h] at hb
    simp at hb
  | a :: l, l', h, b, hb => by
    simp only [mapOpt, Option.bind_eq_some, Option.map_eq_some'] at h
    obtain ⟨b₀, hb₀, m, hm, rfl⟩ := h
    rcases List.mem_cons.mp hb with rfl | hbm
    · exact ⟨a, List.mem_cons_self a l, hb₀⟩
    · obtain ⟨a', ha', hfa'⟩ := mapOpt_mem hm b hbm
      exact ⟨a', List.mem_cons_of_mem a ha', hfa'⟩

theorem normSq_nonneg (v : Vec3) : 0 ≤ Vec3.normSq v := by
  obtain ⟨a, b, c⟩ := v
  simp only [Vec3.normSq, Vec3.dot, Vec3.x, Vec3.y, Vec3.z]
  nlinarith [mul_self_nonneg a, mul_self_nonneg b, mul_self_nonneg c]

theorem normSq_pos {v : Vec3} (hv : v ≠ 0) : 0 < Vec3.normSq v := by
  obtain ⟨a, b, c⟩ := v
  simp only [Vec3.normSq, Vec3.dot, Vec3.x, Vec3.y, Vec3.z]
  have h : ¬(a = 0 ∧ b = 0 ∧ c = 0) := by
    intro ⟨h1, h2, h3⟩
    exact hv (by simp [h1, h2, h3, Prod.ext_iff])
  push_neg at h
  rcases Classical.em (a = 0) with ha | ha
  · rcases Classical.em (b = 0) with hb | hb
    · have hc := h ha hb
      nlinarith [mul_self_nonneg a, mul_self_nonneg b, mul_self_pos.mpr hc]
    · nlinarith [mul_self_nonneg a, mul_self_pos.mpr hb, mul_self_nonneg c]
  · nlinarith [mul_self_pos.mpr ha, mul_self_nonneg b, mul_self_nonneg c]

theorem normSq_smul (r : ℝ) (v : Vec3) :
    Vec3.normSq (r • v) = r ^ 2 * Vec3.normSq v := by
  obtain ⟨a, b, c⟩ := v
  simp only [Vec3.normSq, Vec3.dot, Vec3.x, Vec3.y, Vec3.z, Prod.smul_mk,
    smul_eq_mul]
  ring

theorem nNormalize_normSq {v u : Vec3} (h : nNormalize v = some u) :
    Vec3.normSq u = 1 := by
  unfold nNormalize at h
  split at h
  · exact absurd h (by simp)
  · rename_i hv
    have hpos : 0 < Vec3.normSq v := normSq_pos hv
    have hsq : Real.sqrt (Vec3.normSq v) ^ 2 = Vec3.normSq v :=
      Real.sq_sqrt (le_of_lt hpos)
    have hu : u = (Vec3.length v)⁻¹ • v := by
      simpa using h.symm
    rw [hu, normSq_smul, Vec3.length, inv_pow, hsq]
    exact inv_mul_cancel₀ (ne_of_gt hpos)

theorem axisAngleRotate_zero (k v : Vec3) : axisAngleRotate k 0 v = v := by
  simp [axisAngleRotate, Real.cos_zero, Real.sin_zero]

theorem normSq_axisAngleRotate (k v : Vec3) (θ : ℝ) (hk : Vec3.normSq k = 1) :
    Vec3.normSq (axisAngleRotate k θ v) = Vec3.normSq v := by
  obtain ⟨a, b, c⟩ := k
  obtain ⟨p, q, r⟩ := v
  simp only [Vec3.normSq, Vec3.dot, Vec3.x, Vec3.y, Vec3.z] at hk ⊢
  simp only [axisAngleRotate, Vec3.cross, Vec3.dot, Vec3.x, Vec3.y, Vec3.z,
    Prod.smul_mk, smul_eq_mul, Prod.mk_add_mk]
  have hsc : Real.sin θ ^ 2 + Real.cos θ ^ 2 = 1 := Real.sin_sq_add_cos_sq θ
  linear_combination
    ((p * p + q * q + r * r) - (a * p + b * q + c * r) ^ 2) * hsc +
    (Real.sin θ ^ 2 * (p * p + q * q + r * r) +
      (1 - Real.cos θ) ^ 2 * (a * p + b * q + c * r) ^ 2) * hk

theorem advance_eq_some {s : BlueNoiseSphere} {θ : ℝ} {t : BlueNoiseSphere}
    (h : BlueNoiseSphere.advance s θ = some t) :
    mapOpt (fun p => BlueNoiseSphere.advancePoint p s.particles θ) s.particles =
      some t.particles := by
  unfold BlueNoiseSphere.advance at h
  rw [Option.map_eq_some'] at h
  obtain ⟨m, hm, rfl⟩ := h
  exact hm

theorem advancePoint_some {p : Vec3} {l : List Vec3} {θ : ℝ} {v : Vec3}
    (h : BlueNoiseSphere.advancePoint p l θ = some v) :
    ∃ axis, Vec3.normSq axis = 1 ∧ v = axisAngleRotate axis θ p := by
  unfold BlueNoiseSphere.advancePoint at h
  rw [Option.bind_eq_some] at h
  obtain ⟨acc, _, haxis⟩ := h
  rw [Option.map_eq_some'] at haxis
  obtain ⟨axis, haxis, rfl⟩ := haxis
  exact ⟨axis, nNormalize_normSq haxis, rfl⟩

theorem advance_normSq {s t : BlueNoiseSphere} {θ : ℝ}
    (hs : ∀ v ∈ s.particles, Vec3.normSq v = 1)
    (h : BlueNoiseSphere.advance s θ = some t) :
    ∀ v ∈ t.particles, Vec3.normSq v = 1 := by
  intro v hv
  obtain ⟨p, hp, hpv⟩ := mapOpt_mem (advance_eq_some h) v hv
  obtain ⟨axis, haxis, rfl⟩ := advancePoint_some hpv
  rw [normSq_axisAngleRotate _ _ _ haxis]
  exact hs p hp

theorem advance_multiple_normSq :
    ∀ {K : ℕ} {s t : BlueNoiseSphere} {θ d : ℝ},
      (∀ v ∈ s.particles, Vec3.normSq v = 1) →
      BlueNoiseSphere.advance_multiple s K θ d = some t →
      ∀ v ∈ t.particles, Vec3.normSq v = 1
  | 0, s, t, θ, d, hs, h => by
    simp only [BlueNoiseSphere.advance_multiple, Option.some_inj] at h
    rw [← h]
    exact hs
  | K + 1, s, t, θ, d, hs, h => by
    simp only [BlueNoiseSphere.advance_multiple, Option.bind_eq_some] at h
    obtain ⟨s', hs', hrest⟩ := h
    exact advance_multiple_normSq (advance_normSq hs hs') hrest

theorem advance_length {s t : BlueNoiseSphere} {θ : ℝ}
    (h : BlueNoiseSphere.advance s θ = some t) :
    t.particles.length = s.particles.length :=
  mapOpt_length (advance_eq_some h)

theorem advance_multiple_length :
    ∀ {K : ℕ} {s t : BlueNoiseSphere} {θ d : ℝ},
      BlueNoiseSphere.advance_multiple s K θ d = some t →
      t.particles.length = s.particles.length
  | 0, s, t, θ, d, h => by
    simp only [BlueNoiseSphere.advance_multiple, Option.some_inj] at h
    rw [← h]
  | K + 1, s, t, θ, d, h => by
    simp only [BlueNoiseSphere.advance_multiple, Option.bind_eq_some] at h
    obtain ⟨s', hs', hrest⟩ := h
    rw [advance_multiple_length hrest, advance_length hs']

theorem advancePoint_zero_single {p q : Vec3} {l : List Vec3}
    (hf : l.filter (fun r => decide (r ≠ p)) = [q]) (h : Vec3.cross p q ≠ 0) :
    BlueNoiseSphere.advancePoint p l 0 = some p := by
  have hl : (0:ℝ) < Vec3.length (Vec3.cross p q) :=
    Real.sqrt_pos.mpr (normSq_pos h)
  unfold BlueNoiseSphere.advancePoint
  rw [hf]
  simp [foldOpt, BlueNoiseSphere.forceTerm, nNormalize, h, axisAngleRotate_zero]
  constructor
  · positivity
  · exact ne_of_gt hl

theorem advancePoint_zero_pair {p q : Vec3} {l : List Vec3}
    (hf : l.filter (fun r => decide (r ≠ p)) = [q, q]) (h : Vec3.cross p q ≠ 0) :
    BlueNoiseSphere.advancePoint p l 0 = some p := by
  have hl : (0:ℝ) < Vec3.length (Vec3.cross p q) :=
    Real.sqrt_pos.mpr (normSq_pos h)
  have hc : (0:ℝ) < angleBetween p q ^ 2 + 0.00000001 := by positivity
  unfold BlueNoiseSphere.advancePoint
  rw [hf]
  simp [foldOpt, BlueNoiseSphere.forceTerm, nNormalize, h, axisAngleRotate_zero]
  have htwo : ∀ X : Vec3, -X - X = -((2:ℝ) • X) := by
    intro X; rw [two_smul]; abel
  rw [htwo, neg_eq_zero.not, smul_smul, smul_smul]
  exact smul_ne_zero (by positivity) h

/-- A concrete two-point set used to exercise the embedding. -/
def pairSphere : BlueNoiseSphere := ⟨[((0:ℝ),(0:ℝ),(1:ℝ)), ((1:ℝ),(0:ℝ),(0:ℝ))]⟩

/-- A concrete three-point set with an exactly duplicated point. -/
def tripleSphere : BlueNoiseSphere :=
  ⟨[((0:ℝ),(0:ℝ),(1:ℝ)), ((0:ℝ),(0:ℝ),(1:ℝ)), ((1:ℝ),(0:ℝ),(0:ℝ))]⟩

theorem advance_pair_zero :
    BlueNoiseSphere.advance pairSphere 0 = some pairSphere := by
  unfold pairSphere
  have h1 : ([((0:ℝ),(0:ℝ),(1:ℝ)), ((1:ℝ),(0:ℝ),(0:ℝ))] : List Vec3).filter
      (fun r => decide (r ≠ ((0:ℝ),(0:ℝ),(1:ℝ)))) = [((1:ℝ),(0:ℝ),(0:ℝ))] := by
    simp [List.filter, Prod.ext_iff]
  have h2 : ([((0:ℝ),(0:ℝ),(1:ℝ)), ((1:ℝ),(0:ℝ),(0:ℝ))] : List Vec3).filter
      (fun r => decide (r ≠ ((1:ℝ),(0:ℝ),(0:ℝ)))) = [((0:ℝ),(0:ℝ),(1:ℝ))] := by
    simp [List.filter, Prod.ext_iff]
  have hc1 : Vec3.cross ((0:ℝ),(0:ℝ),(1:ℝ)) ((1:ℝ),(0:ℝ),(0:ℝ)) ≠ 0 := by
    simp [Vec3.cross, Vec3.x, Vec3.y, Vec3.z, Prod.ext_iff]
  have hc2 : Vec3.cross ((1:ℝ),(0:ℝ),(0:ℝ)) ((0:ℝ),(0:ℝ),(1:ℝ)) ≠ 0 := by
    simp [Vec3.cross, Vec3.x, Vec3.y, Vec3.z, Prod.ext_iff]
  simp only [BlueNoiseSphere.advance, mapOpt, advancePoint_zero_single h1 hc1,
    advancePoint_zero_single h2 hc2, Option.some_bind, Option.map_some']

theorem advance_triple_zero :
    BlueNoiseSphere.advance tripleSphere 0 = some tripleSphere := by
  unfold tripleSphere
  have h1 : ([((0:ℝ),(0:ℝ),(1:ℝ)), ((0:ℝ),(0:ℝ),(1:ℝ)),
        ((1:ℝ),(0:ℝ),(0:ℝ))] : List Vec3).filter
      (fun r => decide (r ≠ ((0:ℝ),(0:ℝ),(1:ℝ)))) = [((1:ℝ),(0:ℝ),(0:ℝ))] := by
    simp [List.filter, Prod.ext_iff]
  have h2 : ([((0:ℝ),(0:ℝ),(1:ℝ)), ((0:ℝ),(0:ℝ),(1:ℝ)),
        ((1:ℝ),(0:ℝ),(0:ℝ))] : List Vec3).filter
      (fun r => decide (r ≠ ((1:ℝ),(0:ℝ),(0:ℝ)))) =
      [((0:ℝ),(0:ℝ),(1:ℝ)), ((0:ℝ),(0:ℝ),(1:ℝ))] := by
    simp [List.filter, Prod.ext_iff]
  have hc1 : Vec3.cross ((0:ℝ),(0:ℝ),(1:ℝ)) ((1:ℝ),(0:ℝ),(0:ℝ)) ≠ 0 := by
    simp [Vec3.cross, Vec3.x, Vec3.y, Vec3.z, Prod.ext_iff]
  have hc2 : Vec3.cross ((1:ℝ),(0:ℝ),(0:ℝ)) ((0:ℝ),(0:ℝ),(1:ℝ)) ≠ 0 := by
    simp [Vec3.cross, Vec3.x, Vec3.y, Vec3.z, Prod.ext_iff]
  simp only [BlueNoiseSphere.advance, mapOpt, advancePoint_zero_single h1 hc1,
    advancePoint_zero_pair h2 hc2, Option.some_bind, Option.map_some']

theorem foldl_bind_none {g : ℕ → BlueNoiseSphere → Option BlueNoiseSphere}
    (l : List ℕ) :
    l.foldl (fun os i => os.bind (g i)) none = none := by
  induction l with
  | nil => rfl
  | cons a l ih => simpa using ih

theorem advance_multiple_eq_foldl :
    ∀ (K : ℕ) (s : BlueNoiseSphere) (θ d : ℝ),
      BlueNoiseSphere.advance_multiple s K θ d =
        (List.range K).foldl
          (fun os i =>
            os.bind fun t => BlueNoiseSphere.advance t (appliedThreshold θ d i))
          (some s)
  | 0, s, θ, d => rfl
  | K + 1, s, θ, d => by
    rw [List.range_succ_eq_map]
    simp only [BlueNoiseSphere.advance_multiple, List.foldl_cons,
      Option.some_bind, List.foldl_map]
    have hθ : appliedThreshold θ d 0 = θ := by
      simp [appliedThreshold]
    rw [hθ]
    have hfun : (fun (os : Option BlueNoiseSphere) (i : ℕ) =>
        os.bind fun t =>
          BlueNoiseSphere.advance t (appliedThreshold θ d (i + 1))) =
        (fun os i => os.bind fun t =>
          BlueNoiseSphere.advance t (appliedThreshold (θ * d) d i)) := by
      funext os i
      have h : appliedThreshold θ d (i + 1) = appliedThreshold (θ * d) d i := by
        simp [appliedThreshold]; ring
      rw [h]
    rw [hfun]
    cases h : BlueNoiseSphere.advance s θ with
    | none => simp [foldl_bind_none]
    | some s' => simpa using advance_multiple_eq_foldl K s' (θ * d) d

theorem drainList_nil : drainList ([] : List (ℝ × ℝ × ℝ)) = [] := by
  rw [drainList]

theorem drainList_cons (a : ℝ × ℝ × ℝ) (l : List (ℝ × ℝ × ℝ)) :
    drainList (a :: l) =
      (a :: l).getLast (List.cons_ne_nil a l) :: drainList ((a :: l).dropLast) := by
  rw [drainList]

theorem drainList_eq_reverse (l : List (ℝ × ℝ × ℝ)) : drainList l = l.reverse := by
  induction l using List.reverseRecOn with
  | nil => simp [drainList_nil]
  | append_singleton m a ih =>
    rcases m with _ | ⟨b, m'⟩
    · simp [drainList_cons, drainList_nil]
    · rw [List.cons_append, drainList_cons]
      simp only [← List.cons_append, List.dropLast_concat]
      simp [List.getLast_append, ih]

theorem next_concat (l : List (ℝ × ℝ × ℝ)) (a : ℝ × ℝ × ℝ) :
    BlueNoiseSphereIterator.next ⟨l ++ [a]⟩ = some (a, ⟨l⟩) := by
  rcases l with _ | ⟨b, l'⟩
  · simp [BlueNoiseSphereIterator.next]
  · simp only [List.cons_append, BlueNoiseSphereIterator.next]
    simp only [← List.cons_append, List.dropLast_concat]
    simp [List.getLast_append]

theorem advance_singleton_none :
    BlueNoiseSphere.advance ⟨[((0:ℝ), (0:ℝ), (1:ℝ))]⟩ (1/10) = none := by
  simp [BlueNoiseSphere.advance, BlueNoiseSphere.advancePoint, mapOpt, foldOpt,
    nNormalize, List.filter]

theorem new_raw_one_const :
    BlueNoiseSphere.new_raw 1 (fun _ => ((0:ℝ), (0:ℝ), (1:ℝ))) =
      ⟨[((0:ℝ), (0:ℝ), (1:ℝ))]⟩ := by
  simp [BlueNoiseSphere.new_raw, List.range_succ]

theorem advance_multiple_pair_one :
    BlueNoiseSphere.advance_multiple pairSphere 1 0 1 = some pairSphere := by
  simp [BlueNoiseSphere.advance_multiple, advance_pair_zero]

theorem advance_multiple_triple_one :
    BlueNoiseSphere.advance_multiple tripleSphere 1 0 1 = some tripleSphere := by
  simp [BlueNoiseSphere.advance_multiple, advance_triple_zero]

/-- Transcription of the relaxation formula as the spec words it: for every
other point `q` (value inequality) a term `normalize(cross(p, q))` scaled by
`1 / (angle_between(p, q)^2 + ε)` with `ε = 1e-8` and the angle computed as
the arccosine of the dot product clamped to `[-1, 1]`; the acceleration is
the negated sum of the terms; the point is rotated by the threshold angle
around the normalized acceleration via the Rodrigues formula. -/
def BlueNoiseSphere.advancePointSpec (p : Vec3) (l : List Vec3) (θ : ℝ) :
    Option Vec3 :=
  (mapOpt (fun q => (nNormalize (Vec3.cross p q)).map fun u =>
      (Real.arccos (min 1 (max (-1) (Vec3.dot p q))) ^ 2 + 1e-8)⁻¹ • u)
    (l.filter fun q => decide (q ≠ p))).bind fun terms =>
    (nNormalize (-terms.sum)).map fun axis =>
      Real.cos θ • p + Real.sin θ • Vec3.cross axis p +
        ((1 - Real.cos θ) * Vec3.dot axis p) • axis

theorem foldOpt_sub_eq_mapOpt_sum (f : Vec3 → Option Vec3) :
    ∀ (l : List Vec3) (a : Vec3),
      foldOpt (fun acc q => (f q).map fun t => acc - t) a l =
        (mapOpt f l).map fun ts => a - ts.sum
  | [], a => by simp [foldOpt, mapOpt]
  | q :: l, a => by
    cases hf : f q with
    | none => simp [foldOpt, mapOpt, hf]
    | some t =>
      simp only [foldOpt, mapOpt, hf, Option.map_some', Option.some_bind]
      rw [foldOpt_sub_eq_mapOpt_sum f l (a - t)]
      cases hm : mapOpt f l with
      | none => simp
      | some m =>
        simp only [Option.map_some', List.sum_cons]
        rw [sub_sub]

theorem advancePoint_eq_spec (p : Vec3) (l : List Vec3) (θ : ℝ) :
    BlueNoiseSphere.advancePoint p l θ =
      BlueNoiseSphere.advancePointSpec p l θ := by
  unfold BlueNoiseSphere.advancePoint BlueNoiseSphere.advancePointSpec
  have hterm : BlueNoiseSphere.forceTerm p = (fun q =>
      (nNormalize (Vec3.cross p q)).map fun u =>
        (Real.arccos (min 1 (max (-1) (Vec3.dot p q))) ^ 2 + 1e-8)⁻¹ • u) := by
    funext q
    unfold BlueNoiseSphere.forceTerm angleBetween
    rfl
  rw [foldOpt_sub_eq_mapOpt_sum (BlueNoiseSphere.forceTerm p), hterm]
  cases hm : mapOpt (fun q =>
      (nNormalize (Vec3.cross p q)).map fun u =>
        (Real.arccos (min 1 (max (-1) (Vec3.dot p q))) ^ 2 + 1e-8)⁻¹ • u)
      (l.filter fun q => decide (q ≠ p)) with
  | none => rfl
  | some ts =>
    simp only [Option.map_some', Option.some_bind, zero_sub]
    rfl

theorem advance_dup {s t : BlueNoiseSphere} {θ : ℝ} {i j : ℕ}
    (h : BlueNoiseSphere.advance s θ = some t)
    (hij : s.particles[i]? = s.particles[j]?) :
    t.particles[i]? = t.particles[j]? := by
  rw [mapOpt_getElem? (advance_eq_some h) i, mapOpt_getElem? (advance_eq_some h) j,
    hij]

theorem advance_multiple_dup :
    ∀ {K : ℕ} {s t : BlueNoiseSphere} {θ d : ℝ} {i j : ℕ},
      BlueNoiseSphere.advance_multiple s K θ d = some t →
      s.particles[i]? = s.particles[j]? → t.particles[i]? = t.particles[j]?
  | 0, s, t, θ, d, i, j, h, hij => by
    simp only [BlueNoiseSphere.advance_multiple, Option.some_inj] at h
    rw [← h]
    exact hij
  | K + 1, s, t, θ, d, i, j, h, hij => by
    simp only [BlueNoiseSphere.advance_multiple, Option.bind_eq_some] at h
    obtain ⟨s', hs', hrest⟩ := h
    exact advance_multiple_dup hrest (advance_dup hs' hij)

theorem norm_tol_of_normSq_one {v : Vec3} (h : Vec3.normSq v = 1) :
    |Real.sqrt (Vec3.normSq v) - 1| ≤ 1e-5 := by
  rw [h, Real.sqrt_one, sub_self, abs_zero]
  norm_num

theorem u32ToI32_of_lt {n : ℕ} (h : n < 2 ^ 31) : u32ToI32 n = (n : ℤ) := by
  unfold u32ToI32
  rw [Nat.mod_eq_of_lt (lt_trans h (by norm_num))]
  rw [if_pos h]

theorem defaultThreshold_of_lt {n : ℕ} (h : n < 2 ^ 31) :
    defaultThreshold n = (0.99938357 : ℝ) ^ n / 4 + 0.01 := by
  unfold defaultThreshold
  rw [u32ToI32_of_lt h, zpow_natCast]

theorem u32ToI32_wrap : u32ToI32 (2 ^ 31) = -(2 ^ 31) := by
  unfold u32ToI32
  rw [Nat.mod_eq_of_lt (by norm_num : (2:ℕ) ^ 31 < 2 ^ 32),
    if_neg (by norm_num : ¬((2:ℕ) ^ 31 < 2 ^ 31))]
  norm_num

theorem threshold_shape_ne (A B : ℝ) (h1 : B < 1) (h2 : 1 < A) :
    A / 4 + 0.01 ≠ B / 4 + 0.01 := by
  intro heq
  linarith

theorem defaultThreshold_wrap_ne :
    defaultThreshold (2 ^ 31) ≠ (0.99938357 : ℝ) ^ (2 ^ 31 : ℕ) / 4 + 0.01 := by
  have h1 : (0.99938357 : ℝ) ^ (2 ^ 31 : ℕ) < 1 :=
    pow_lt_one₀ (by norm_num) (by norm_num) (by norm_num)
  have h2 : (1 : ℝ) < (0.99938357 : ℝ) ^ (-(2 ^ 31) : ℤ) := by
    have h0 : (0 : ℝ) < (0.99938357 : ℝ) ^ (2 ^ 31 : ℕ) := by positivity
    rw [show (-(2 ^ 31) : ℤ) = -((2 ^ 31 : ℕ) : ℤ) by norm_num, zpow_neg,
      zpow_natCast]
    exact (one_lt_inv₀ h0).mpr h1
  unfold defaultThreshold
  rw [u32ToI32_wrap]
  exact threshold_shape_ne _ _ h1 h2

/-! ### Claims -/

/-- C1: the claim states that a zero accumulated acceleration vector (as for
any 1-point set) leaves the point exactly unchanged with no NaN ever
produced.  The code does the opposite: it normalizes the zero acceleration,
which produces a NaN axis and a NaN point.  Evaluating the embedded `advance`
on the raw 1-point set at threshold 1/10 yields `none`, the embedding's
marker for a NaN-poisoned result, instead of the unchanged point set. -/
theorem claim_C1_zero_acc_nan :
    BlueNoiseSphere.advance
        (BlueNoiseSphere.new_raw 1 (fun _ => ((0:ℝ), (0:ℝ), (1:ℝ)))) (1/10) =
      none := by
  rw [new_raw_one_const]
  exact advance_singleton_none

/-- C2 (amended): all raw points are unit vectors whenever the sampler only
emits unit vectors, and every *defined* (non-NaN) output of `advance` or
`advance_multiple` on a unit-norm point set consists of points whose squared
norm is exactly 1, hence whose norm is within 1e-5 of 1.  (The original
claim fails only on NaN-poisoned outputs, see the counterexample.) -/
theorem claim_C2_unit_norm (n : ℕ) (f : ℕ → Vec3) (s t : BlueNoiseSphere)
    (θ d : ℝ) (K : ℕ)
    (hf : ∀ i, Vec3.normSq (f i) = 1)
    (hs : ∀ v ∈ s.particles, Vec3.normSq v = 1) :
    (∀ v ∈ (BlueNoiseSphere.new_raw n f).particles,
        Vec3.normSq v = 1 ∧ |Real.sqrt (Vec3.normSq v) - 1| ≤ 1e-5)
    ∧ (BlueNoiseSphere.advance s θ = some t →
        ∀ v ∈ t.particles,
          Vec3.normSq v = 1 ∧ |Real.sqrt (Vec3.normSq v) - 1| ≤ 1e-5)
    ∧ (BlueNoiseSphere.advance_multiple s K θ d = some t →
        ∀ v ∈ t.particles,
          Vec3.normSq v = 1 ∧ |Real.sqrt (Vec3.normSq v) - 1| ≤ 1e-5) := by
  refine ⟨?_, ?_, ?_⟩
  · intro v hv
    simp only [BlueNoiseSphere.new_raw, List.mem_map] at hv
    obtain ⟨i, _, rfl⟩ := hv
    exact ⟨hf i, norm_tol_of_normSq_one (hf i)⟩
  · intro h v hv
    have h1 := advance_normSq hs h v hv
    exact ⟨h1, norm_tol_of_normSq_one h1⟩
  · intro h v hv
    have h1 := advance_multiple_normSq hs h v hv
    exact ⟨h1, norm_tol_of_normSq_one h1⟩

/-- C2 witness: the amended theorem applied at the concrete two-point set
`pairSphere` with threshold 0, discharging every hypothesis there. -/
theorem claim_C2_unit_norm_witness :
    ((∀ i : ℕ, Vec3.normSq ((fun _ => ((0:ℝ),(0:ℝ),(1:ℝ))) i) = 1)
      ∧ (∀ v ∈ pairSphere.particles, Vec3.normSq v = 1)
      ∧ BlueNoiseSphere.advance pairSphere 0 = some pairSphere)
    ∧ (∀ v ∈ pairSphere.particles,
        Vec3.normSq v = 1 ∧ |Real.sqrt (Vec3.normSq v) - 1| ≤ 1e-5) := by
  have hf : ∀ i : ℕ, Vec3.normSq ((fun _ => ((0:ℝ),(0:ℝ),(1:ℝ))) i) = 1 := by
    intro i
    norm_num [Vec3.normSq, Vec3.dot, Vec3.x, Vec3.y, Vec3.z]
  have hs : ∀ v ∈ pairSphere.particles, Vec3.normSq v = 1 := by
    intro v hv
    unfold pairSphere at hv
    simp only [List.mem_cons, List.not_mem_nil, or_false] at hv
    rcases hv with rfl | rfl <;>
      norm_num [Vec3.normSq, Vec3.dot, Vec3.x, Vec3.y, Vec3.z]
  exact ⟨⟨hf, hs, advance_pair_zero⟩,
    (claim_C2_unit_norm 1 _ pairSphere pairSphere 0 1 1 hf hs).2.1
      advance_pair_zero⟩

/-- C2 counterexample: the claim as stated fails at a concrete input.  After
one advance step on the raw one-point set, the observable state is
NaN-poisoned: there is no defined output point set whose points all have
norm within 1e-5 of 1. -/
theorem claim_C2_counterexample :
    ¬ ∃ t : BlueNoiseSphere,
        BlueNoiseSphere.advance
            (BlueNoiseSphere.new_raw 1 (fun _ => ((0:ℝ),(0:ℝ),(1:ℝ)))) (1/10) =
          some t ∧
        ∀ v ∈ t.particles, |Real.sqrt (Vec3.normSq v) - 1| ≤ 1e-5 := by
  rintro ⟨t, ht, -⟩
  rw [new_raw_one_const, advance_singleton_none] at ht
  exact Option.noConfusion ht

/-- C3: one advance step computes, for every point of the read-only
snapshot, exactly the spec's formula: the acceleration is accumulated over
every value-distinct point `q` as `acc -= normalize(cross(p,q)) /
(angle_between(p,q)^2 + 1e-8)` with the angle the arccosine of the clamped
dot product, and the point is rotated by the threshold angle around the
normalized acceleration axis by the Rodrigues rotation. -/
theorem claim_C3_advance_formula (s : BlueNoiseSphere) (θ : ℝ) :
    BlueNoiseSphere.advance s θ =
      (mapOpt (fun p => BlueNoiseSphere.advancePointSpec p s.particles θ)
        s.particles).map BlueNoiseSphere.mk := by
  unfold BlueNoiseSphere.advance
  have h : (fun p => BlueNoiseSphere.advancePoint p s.particles θ) =
      (fun p => BlueNoiseSphere.advancePointSpec p s.particles θ) :=
    funext fun p => advancePoint_eq_spec p s.particles θ
  rw [h]

/-- C4 (amended): `advance_multiple` performs exactly `K` advance steps with
applied thresholds `θ·d^i` for `i < K`; the schedule is strictly decreasing
for `θ > 0` and `d ∈ (0,1)`, and non-negative and non-increasing for
`θ ≥ 0` and `0 ≤ d ≤ 1`.  (The original claim omitted `θ > 0` and `d ≥ 0`,
see the counterexample.) -/
theorem claim_C4_threshold_schedule (s : BlueNoiseSphere) (K : ℕ) (θ d : ℝ) :
    BlueNoiseSphere.advance_multiple s K θ d =
      (List.range K).foldl
        (fun os i => os.bind fun t =>
          BlueNoiseSphere.advance t (appliedThreshold θ d i)) (some s)
    ∧ (0 < θ → 0 < d → d < 1 → StrictAnti (appliedThreshold θ d))
    ∧ (0 ≤ θ → 0 ≤ d → d ≤ 1 → ∀ i j : ℕ, i ≤ j →
        0 ≤ appliedThreshold θ d j ∧
          appliedThreshold θ d j ≤ appliedThreshold θ d i) := by
  refine ⟨advance_multiple_eq_foldl K s θ d, ?_, ?_⟩
  · intro hθ hd0 hd1
    apply strictAnti_nat_of_succ_lt
    intro m
    unfold appliedThreshold
    have h := pow_lt_pow_right_of_lt_one₀ hd0 hd1 (Nat.lt_succ_self m)
    simp only [Nat.succ_eq_add_one] at h
    exact mul_lt_mul_of_pos_left h hθ
  · intro hθ hd0 hd1 i j hij
    unfold appliedThreshold
    exact ⟨mul_nonneg hθ (pow_nonneg hd0 j),
      mul_le_mul_of_nonneg_left (pow_le_pow_of_le_one hd0 hd1 hij) hθ⟩

/-- C4 witness: the amended theorem applied at the empty set, `K = 2`,
`θ = 1`, `d = 1/2`, discharging every hypothesis there. -/
theorem claim_C4_witness :
    ((0:ℝ) < 1 ∧ (0:ℝ) < 1/2 ∧ (1/2:ℝ) < 1 ∧ (0:ℝ) ≤ 1 ∧ (0:ℝ) ≤ 1/2 ∧
      (1/2:ℝ) ≤ 1 ∧ (0:ℕ) ≤ 1)
    ∧ BlueNoiseSphere.advance_multiple ⟨[]⟩ 2 1 (1/2) =
        (List.range 2).foldl
          (fun os i => os.bind fun t =>
            BlueNoiseSphere.advance t (appliedThreshold 1 (1/2) i)) (some ⟨[]⟩)
    ∧ StrictAnti (appliedThreshold 1 (1/2 : ℝ))
    ∧ (0 ≤ appliedThreshold 1 (1/2 : ℝ) 1 ∧
        appliedThreshold 1 (1/2 : ℝ) 1 ≤ appliedThreshold 1 (1/2 : ℝ) 0) :=
  ⟨by norm_num,
   (claim_C4_threshold_schedule ⟨[]⟩ 2 1 (1/2)).1,
   (claim_C4_threshold_schedule ⟨[]⟩ 2 1 (1/2)).2.1 (by norm_num) (by norm_num)
     (by norm_num),
   (claim_C4_threshold_schedule ⟨[]⟩ 2 1 (1/2)).2.2 (by norm_num) (by norm_num)
     (by norm_num) 0 1 (by norm_num)⟩

/-- C4 counterexample: the claim as stated is false.  With `θ = 1`,
`d = -1` the second applied threshold is `-1 < 0`, refuting "for θ ≥ 0 and
d ≤ 1 every applied threshold is non-negative"; and with `θ = 0`,
`d = 1/2 ∈ (0,1)` the schedule is constantly `0`, not strictly
decreasing. -/
theorem claim_C4_counterexample :
    (¬ ∀ (s : BlueNoiseSphere) (K : ℕ) (θ d : ℝ),
        BlueNoiseSphere.advance_multiple s K θ d =
          (List.range K).foldl
            (fun os i => os.bind fun t =>
              BlueNoiseSphere.advance t (appliedThreshold θ d i)) (some s)
        ∧ (0 < d → d < 1 → StrictAnti (appliedThreshold θ d))
        ∧ (0 ≤ θ → d ≤ 1 → ∀ i j : ℕ, i ≤ j →
            0 ≤ appliedThreshold θ d j ∧
              appliedThreshold θ d j ≤ appliedThreshold θ d i))
    ∧ ¬ StrictAnti (appliedThreshold 0 (1/2 : ℝ))
    ∧ appliedThreshold 1 (-1 : ℝ) 1 < 0 := by
  refine ⟨?_, ?_, ?_⟩
  · intro h
    have h2 := ((h ⟨[]⟩ 0 1 (-1)).2.2 (by norm_num) (by norm_num) 1 1 le_rfl).1
    rw [show appliedThreshold 1 (-1 : ℝ) 1 = -1 by
      unfold appliedThreshold; norm_num] at h2
    norm_num at h2
  · intro h
    have h2 := h (Nat.lt_succ_self 0)
    rw [show appliedThreshold 0 (1/2 : ℝ) 1 = 0 by
        unfold appliedThreshold; norm_num,
      show appliedThreshold 0 (1/2 : ℝ) 0 = 0 by
        unfold appliedThreshold; norm_num] at h2
    exact lt_irrefl 0 h2
  · unfold appliedThreshold
    norm_num

/-- C5: `advance_multiple` with iteration count 0 returns the input point
set unchanged, with no advance step applied. -/
theorem claim_C5_zero_iterations (s : BlueNoiseSphere) (θ d : ℝ) :
    BlueNoiseSphere.advance_multiple s 0 θ d = some s := rfl

/-- C6: raw construction returns exactly `n` points for every `n ≥ 0`
(`n = 0` gives the empty set), `advance` and `advance_multiple` preserve the
number of points, and the output conversion yields exactly as many
triples. -/
theorem claim_C6_count_invariant (n : ℕ) (f : ℕ → Vec3) (s t : BlueNoiseSphere)
    (θ d : ℝ) (K : ℕ) :
    (BlueNoiseSphere.new_raw n f).particles.length = n
    ∧ (BlueNoiseSphere.advance s θ = some t →
        t.particles.length = s.particles.length)
    ∧ (BlueNoiseSphere.advance_multiple s K θ d = some t →
        t.particles.length = s.particles.length)
    ∧ (BlueNoiseSphere.intoIter s).points.length = s.particles.length := by
  refine ⟨?_, fun h => advance_length h, fun h => advance_multiple_length h, ?_⟩
  · simp [BlueNoiseSphere.new_raw]
  · simp [BlueNoiseSphere.intoIter]

/-- C6 witness: the count theorem applied at the concrete two-point set
`pairSphere`, discharging both `some`-result hypotheses there. -/
theorem claim_C6_witness :
    (BlueNoiseSphere.advance pairSphere 0 = some pairSphere ∧
      BlueNoiseSphere.advance_multiple pairSphere 1 0 1 = some pairSphere)
    ∧ ((BlueNoiseSphere.new_raw 2 (fun _ => ((0:ℝ),(0:ℝ),(1:ℝ)))).particles.length = 2
      ∧ pairSphere.particles.length = pairSphere.particles.length
      ∧ (BlueNoiseSphere.intoIter pairSphere).points.length =
          pairSphere.particles.length) :=
  ⟨⟨advance_pair_zero, advance_multiple_pair_one⟩,
   ⟨(claim_C6_count_invariant 2 (fun _ => ((0:ℝ),(0:ℝ),(1:ℝ))) pairSphere
       pairSphere 0 1 1).1,
    (claim_C6_count_invariant 2 (fun _ => ((0:ℝ),(0:ℝ),(1:ℝ))) pairSphere
       pairSphere 0 1 1).2.1 advance_pair_zero,
    (claim_C6_count_invariant 2 (fun _ => ((0:ℝ),(0:ℝ),(1:ℝ))) pairSphere
       pairSphere 0 1 1).2.2.2⟩⟩

/-- C7: consuming a point set yields its `(x, y, z)` triples in reverse of
the internal storage order — `next` pops from the end of the buffer — and an
exhausted cursor (empty buffer) yields nothing on every further request. -/
theorem claim_C7_reverse_order (s : BlueNoiseSphere) (l : List (ℝ × ℝ × ℝ))
    (a : ℝ × ℝ × ℝ) :
    drain (BlueNoiseSphere.intoIter s) =
        (s.particles.map fun p => (Vec3.x p, Vec3.y p, Vec3.z p)).reverse
    ∧ BlueNoiseSphereIterator.next ⟨l ++ [a]⟩ = some (a, ⟨l⟩)
    ∧ BlueNoiseSphereIterator.next ⟨[]⟩ = none := by
  refine ⟨?_, next_concat l a, rfl⟩
  unfold drain BlueNoiseSphere.intoIter
  exact drainList_eq_reverse _

/-- C8 (amended): the convenience constructor equals raw construction
followed by `advance_multiple` with exactly 16 iterations and decay ratio
`0.8`, with initial threshold `0.99938357^e / 4 + 0.01` where `e` is the
wrapping `u32 → i32` cast the source applies to N in
`powi(num_of_points as i32)`; for every `N < 2^31` (no wrap) this threshold
is exactly the claimed `0.99938357^N / 4 + 0.01`; equivalently the
constructor performs the 16 advance steps with thresholds `θ₀ · 0.8^i`.
(For `N ≥ 2^31` the wrapped exponent is negative and the threshold differs
from the claimed formula, see the counterexample.) -/
theorem claim_C8_default_params (n : ℕ) (f : ℕ → Vec3) :
    BlueNoiseSphere.new n f =
      BlueNoiseSphere.advance_multiple (BlueNoiseSphere.new_raw n f) 16
        (defaultThreshold n) 0.8
    ∧ BlueNoiseSphere.new n f =
      (List.range 16).foldl
        (fun os i => os.bind fun t => BlueNoiseSphere.advance t
          (appliedThreshold (defaultThreshold n) 0.8 i))
        (some (BlueNoiseSphere.new_raw n f))
    ∧ (n < 2 ^ 31 → defaultThreshold n = (0.99938357 : ℝ) ^ n / 4 + 0.01) :=
  ⟨rfl, advance_multiple_eq_foldl 16 _ _ _, fun h => defaultThreshold_of_lt h⟩

/-- C8 witness: the amended theorem applied at the concrete point count 16,
discharging the no-wrap hypothesis there. -/
theorem claim_C8_witness :
    (16 < 2 ^ 31)
    ∧ defaultThreshold 16 = (0.99938357 : ℝ) ^ (16 : ℕ) / 4 + 0.01 :=
  ⟨by norm_num,
   (claim_C8_default_params 16 (fun _ => ((0:ℝ),(0:ℝ),(1:ℝ)))).2.2
     (by norm_num)⟩

/-- C8 counterexample: the claim as stated is false at the concrete point
count `N = 2^31`: the `num_of_points as i32` cast wraps the exponent to
`-(2^31)`, and the constructor's initial threshold (greater than 1/4)
differs from the claimed `0.99938357^N / 4 + 0.01` (less than 1/4 + 0.01). -/
theorem claim_C8_counterexample :
    u32ToI32 (2 ^ 31) = -(2 ^ 31)
    ∧ defaultThreshold (2 ^ 31) ≠ (0.99938357 : ℝ) ^ (2 ^ 31 : ℕ) / 4 + 0.01 :=
  ⟨u32ToI32_wrap, defaultThreshold_wrap_ne⟩

/-- C9: construction is a deterministic function of the drawn samples — two
runs whose samplers agree on the first `n` draws produce identical outputs —
and the per-point result of an advance step is computed from the read-only
snapshot alone, so processing any partition of the particles chunk by chunk
and concatenating yields exactly the sequential result. -/
theorem claim_C9_determinism :
    (∀ (n : ℕ) (f g : ℕ → Vec3), (∀ i, i < n → f i = g i) →
        BlueNoiseSphere.new n f = BlueNoiseSphere.new n g)
    ∧ (∀ (s : BlueNoiseSphere) (θ : ℝ) (chunks : List (List Vec3)),
        chunks.flatten = s.particles →
        (chunks.map fun c => c.map fun p =>
            BlueNoiseSphere.advancePoint p s.particles θ).flatten =
          s.particles.map fun p =>
            BlueNoiseSphere.advancePoint p s.particles θ) := by
  constructor
  · intro n f g h
    unfold BlueNoiseSphere.new
    have hraw : BlueNoiseSphere.new_raw n f = BlueNoiseSphere.new_raw n g := by
      unfold BlueNoiseSphere.new_raw
      exact congrArg _
        (List.map_congr_left fun i hi => h i (List.mem_range.mp hi))
    rw [hraw]
  · intro s θ chunks h
    rw [← h]
    exact (List.map_flatten _ chunks).symm

/-- C9 witness: the determinism theorem applied to two samplers that agree
on the (empty) consumed prefix, and the partition theorem applied to a
concrete chunking of `pairSphere`, discharging each hypothesis there. -/
theorem claim_C9_witness :
    ((∀ i : ℕ, i < 0 →
        (fun _ : ℕ => ((0:ℝ),(0:ℝ),(1:ℝ))) i =
          (fun _ : ℕ => ((1:ℝ),(0:ℝ),(0:ℝ))) i)
      ∧ ([[((0:ℝ),(0:ℝ),(1:ℝ))], [((1:ℝ),(0:ℝ),(0:ℝ))]] :
          List (List Vec3)).flatten = pairSphere.particles)
    ∧ BlueNoiseSphere.new 0 (fun _ => ((0:ℝ),(0:ℝ),(1:ℝ))) =
        BlueNoiseSphere.new 0 (fun _ => ((1:ℝ),(0:ℝ),(0:ℝ)))
    ∧ (([[((0:ℝ),(0:ℝ),(1:ℝ))], [((1:ℝ),(0:ℝ),(0:ℝ))]] :
          List (List Vec3)).map fun c => c.map fun p =>
            BlueNoiseSphere.advancePoint p pairSphere.particles 0).flatten =
        pairSphere.particles.map fun p =>
          BlueNoiseSphere.advancePoint p pairSphere.particles 0 := by
  have h1 : ∀ i : ℕ, i < 0 →
      (fun _ : ℕ => ((0:ℝ),(0:ℝ),(1:ℝ))) i =
        (fun _ : ℕ => ((1:ℝ),(0:ℝ),(0:ℝ))) i :=
    fun i hi => absurd hi (Nat.not_lt_zero i)
  have h2 : ([[((0:ℝ),(0:ℝ),(1:ℝ))], [((1:ℝ),(0:ℝ),(0:ℝ))]] :
      List (List Vec3)).flatten = pairSphere.particles := rfl
  exact ⟨⟨h1, h2⟩, claim_C9_determinism.1 0 _ _ h1,
    claim_C9_determinism.2 pairSphere 0 _ h2⟩

/-- C10: exactly coincident particles stay coincident: if positions `i` and
`j` of a point set hold equal vectors, then after one advance step — and
after any number of `advance_multiple` steps — positions `i` and `j` of the
(defined) result still hold equal vectors. -/
theorem claim_C10_duplicates (s t : BlueNoiseSphere) (θ d : ℝ) (K i j : ℕ) :
    (BlueNoiseSphere.advance s θ = some t →
      s.particles[i]? = s.particles[j]? →
      t.particles[i]? = t.particles[j]?)
    ∧ (BlueNoiseSphere.advance_multiple s K θ d = some t →
      s.particles[i]? = s.particles[j]? →
      t.particles[i]? = t.particles[j]?) :=
  ⟨fun h hij => advance_dup h hij, fun h hij => advance_multiple_dup h hij⟩

/-- C10 witness: the duplicate-preservation theorem applied at the concrete
three-point set `tripleSphere`, whose first two particles coincide,
discharging each hypothesis there. -/
theorem claim_C10_witness :
    (BlueNoiseSphere.advance tripleSphere 0 = some tripleSphere
      ∧ BlueNoiseSphere.advance_multiple tripleSphere 1 0 1 = some tripleSphere
      ∧ tripleSphere.particles[0]? = tripleSphere.particles[1]?)
    ∧ tripleSphere.particles[0]? = tripleSphere.particles[1]? :=
  ⟨⟨advance_triple_zero, advance_multiple_triple_one, rfl⟩,
   (claim_C10_duplicates tripleSphere tripleSphere 0 1 1 0 1).2
     advance_multiple_triple_one rfl⟩

end SphericalBlueNoise
